import Mathlib

/-!
Verification of the Research Orchestration Engine.

This file gives a shallow embedding, in Lean 4, of the core data model and
operations of the deep-research pipeline (`src/main.py` and the helpers in
`src/utils/`), and proves or refutes the spec's testable properties about
them.  Machine floats are modelled as rationals, wall-clock timestamps as
rationals (hours), and calls to external services (search, fetch,
text-generation, evaluation) as oracle functions supplied per run: the
claims under verification are about the orchestrator's own control flow and
data handling, not about the externals' outputs.
-/

/-- A plan step, as produced by the planner and consumed by
`ResearchSystem._create_execution_batches` / `_execute_step`
(`src/main.py`): a stable 1-based `step_number`, an `action` description,
candidate `search_queries` and a `reasoning` string. -/
structure Step where
  step_number : Nat
  action : String
  search_queries : List String
  reasoning : String
deriving DecidableEq

/-- The fixed dependency-marker list of
`ResearchSystem._create_execution_batches` (`src/main.py`, lines 159-162). -/
def dependencyKeywords : List String :=
  ["based on", "using", "compare", "synthesize", "combine",
   "previous", "earlier", "above", "from step", "after"]

/-- Python's `str.lower()`, as character-wise lowercasing of the string's
character list. -/
def lowerChars (s : String) : List Char :=
  s.data.map Char.toLower

/-- Python's substring test `pat in hay`, as semantic infix of character
lists. -/
def strContains (hay : List Char) (pat : String) : Bool :=
  decide (pat.data <:+: hay)

/-- The lower-cased text `f"\x7bstep['action']\x7d \x7bstep['reasoning']\x7d".lower()`
scanned for dependency keywords (`src/main.py`, line 172). -/
def stepText (s : Step) : List Char :=
  lowerChars (s.action ++ " " ++ s.reasoning)

/-- A step is classified as dependent when its text contains a dependency
keyword, or when it is the last step of the plan
(`step['step_number'] == len(steps)`, `src/main.py`, lines 179-184). -/
def stepHasDependency (numSteps : Nat) (s : Step) : Bool :=
  dependencyKeywords.any (fun kw => strContains (stepText s) kw)
    || (s.step_number == numSteps)

/-- One round of the scheduler's inner `for step in remaining_steps` loop
(`src/main.py`, lines 171-191): each step is deferred to `nextRemaining`
when it is dependent and the current batch is non-empty, and otherwise
appended to `currentBatch`. -/
def roundAux (dep : Step → Bool) :
    List Step → List Step → List Step → List Step × List Step
  | [], currentBatch, nextRemaining => (currentBatch, nextRemaining)
  | s :: rest, currentBatch, nextRemaining =>
    if dep s && !currentBatch.isEmpty then
      roundAux dep rest currentBatch (nextRemaining ++ [s])
    else
      roundAux dep rest (currentBatch ++ [s]) nextRemaining

/-- The scheduler's outer `while remaining_steps` loop (`src/main.py`,
lines 167-200): emit the round's batch and recurse on the deferred steps;
if a round places nothing (the source's no-progress fallback), emit every
remaining step as its own singleton batch and stop. -/
def createBatchesAux (dep : Step → Bool) : List Step → List (List Step)
  | [] => []
  | s :: rest =>
    if h : (roundAux dep (s :: rest) [] []).1 = [] then
      (s :: rest).map (fun st => [st])
    else
      (roundAux dep (s :: rest) [] []).1 ::
        createBatchesAux dep (roundAux dep (s :: rest) [] []).2
termination_by l => l.length
decreasing_by
  have key : ∀ (l cb nr : List Step),
      ((roundAux dep l cb nr).1).length + ((roundAux dep l cb nr).2).length
        = cb.length + nr.length + l.length := by
    intro l
    induction l with
    | nil => intro cb nr; simp [roundAux]
    | cons a t ih =>
      intro cb nr
      cases hc : (dep a && !cb.isEmpty) with
      | true =>
        have hs : roundAux dep (a :: t) cb nr = roundAux dep t cb (nr ++ [a]) := by
          simp [roundAux, hc]
        rw [hs, ih]
        simp
        omega
      | false =>
        have hs : roundAux dep (a :: t) cb nr = roundAux dep t (cb ++ [a]) nr := by
          simp [roundAux, hc]
        rw [hs, ih]
        simp
        omega
  have h1 : 0 < ((roundAux dep (s :: rest) [] []).1).length :=
    List.length_pos.mpr h
  have h2 := key (s :: rest) [] []
  simp only [List.length_nil, List.length_cons] at h2 ⊢
  omega

/-- `ResearchSystem._create_execution_batches` (`src/main.py`, lines
144-202): partition the plan's steps into sequential batches of
heuristically independent steps. -/
def createExecutionBatches (steps : List Step) : List (List Step) :=
  createBatchesAux (stepHasDependency steps.length) steps

/-- A concrete three-step plan with no dependency keywords anywhere, used
as the witness input for the scheduler claims. -/
def steps3 : List Step :=
  [⟨1, "a", ["q1"], "r1"⟩, ⟨2, "b", ["q2"], "r2"⟩, ⟨3, "c", ["q3"], "r3"⟩]

/-- A quality evaluation, as returned by `evaluate_research_quality`
(`src/modules/quality_evaluator.py`) and consumed by
`ResearchSystem._execute_step`: the weighted `overall_score` (a float,
modelled as a rational), the `threshold_met` flag and the list of
`missing_aspects`. -/
structure Evaluation where
  overall_score : ℚ
  threshold_met : Bool
  missing_aspects : List String
deriving DecidableEq

/-- `self.max_iterations_per_step = 3` (`src/main.py`, line 35). -/
def maxIterationsPerStep : Nat := 3

/-- The synthetic evaluation installed when an iteration collects no facts
(`src/main.py`, lines 359-363). -/
def noFactsEvaluation : Evaluation :=
  ⟨0, false, ["No data collected"]⟩

/-- Oracle for one step's external interactions inside `_execute_step`,
indexed by the 1-based iteration number: `factsAfter i` is the cumulative
number of facts collected for this step once iteration `i`'s queries have
run, `evalAt i` is the evaluation `evaluate_research_quality` returns at
iteration `i`, and `refineAt i` is the refined query list
`identify_knowledge_gaps` returns at iteration `i`.  The queries actually
submitted do not appear: their effect is already folded into the oracle. -/
structure StepEnv where
  factsAfter : Nat → Nat
  evalAt : Nat → Evaluation
  refineAt : Nat → List String

/-- Observable outcome of one step's quality-convergence loop: the final
value of the `iteration` counter, the `quality_met` flag, and the quality
scores recorded (one per executed iteration, in order) via
`metrics.record_iteration`.  `MetricsTracker` itself is not under `src/`;
its recorded per-step score list is modelled from the spec's
diminishing-returns rule as an append-only list, which is also how
`_execute_step` reads it back (`quality_scores[step_number][-2]`). -/
structure StepResult where
  iterations : Nat
  quality_met : Bool
  scores : List ℚ
deriving DecidableEq

/-- Result of the body of one loop pass after the query phase: either the
loop halts with a final result, or it continues with the new
`last_evaluation` and recorded scores. -/
inductive IterOutcome where
  | halt (result : StepResult)
  | next (lastEval : Evaluation) (scores : List ℚ)

/-- The query/evaluate phase of one pass of the per-step loop
(`src/main.py`, lines 335-392), at 1-based iteration `it` with the scores
recorded so far: if no facts have been collected for the step, record 0.0
and continue (the source's `continue` skips every later check); otherwise
evaluate, stop successfully when the threshold is met, stop on diminishing
returns (`improvement < 0.05` from the second iteration on), and continue
otherwise. -/
def runIteration (env : StepEnv) (it : Nat) (scores : List ℚ) : IterOutcome :=
  if env.factsAfter it = 0 then
    IterOutcome.next noFactsEvaluation (scores ++ [0])
  else
    if (env.evalAt it).threshold_met then
      IterOutcome.halt ⟨it, true, scores ++ [(env.evalAt it).overall_score]⟩
    else
      if it > 1 ∧ (env.evalAt it).overall_score - (scores.getLast?.getD 0) < 1/20 then
        IterOutcome.halt ⟨it, false, scores ++ [(env.evalAt it).overall_score]⟩
      else
        IterOutcome.next (env.evalAt it) (scores ++ [(env.evalAt it).overall_score])

/-- The per-step recursive research loop `while iteration <
self.max_iterations_per_step and not quality_met` (`src/main.py`, lines
303-392).  `fuel` is an upper bound on the remaining loop passes used only
to make the recursion structural; every entry point passes
`maxIterationsPerStep`, which the guard `iteration < maxIterationsPerStep`
makes sufficient, and the claims proved below hold for every fuel value.
Iteration 1 uses the step's predefined queries; later iterations first
require the previous evaluation's `missing_aspects` to be non-empty and
`identify_knowledge_gaps` to return queries, and otherwise `break`.  The
`none` branch for `lastEval` is unreachable from the entry point: iteration
1 always sets `last_evaluation` before any later iteration reads it. -/
def executeStepLoop (env : StepEnv) :
    Nat → Nat → Bool → Option Evaluation → List ℚ → StepResult
  | 0, iteration, qualityMet, _, scores => ⟨iteration, qualityMet, scores⟩
  | fuel + 1, iteration, qualityMet, lastEval, scores =>
    if iteration < maxIterationsPerStep ∧ qualityMet = false then
      if iteration + 1 = 1 then
        match runIteration env (iteration + 1) scores with
        | IterOutcome.halt r => r
        | IterOutcome.next ev sc =>
          executeStepLoop env fuel (iteration + 1) qualityMet (some ev) sc
      else
        match lastEval with
        | none => ⟨iteration + 1, qualityMet, scores⟩
        | some prev =>
          if prev.missing_aspects.isEmpty then ⟨iteration + 1, qualityMet, scores⟩
          else if (env.refineAt (iteration + 1)).isEmpty then
            ⟨iteration + 1, qualityMet, scores⟩
          else
            match runIteration env (iteration + 1) scores with
            | IterOutcome.halt r => r
            | IterOutcome.next ev sc =>
              executeStepLoop env fuel (iteration + 1) qualityMet (some ev) sc
    else ⟨iteration, qualityMet, scores⟩

/-- Entry point of the per-step loop: `iteration = 0`, `quality_met =
False`, no evaluation yet, no recorded scores (`src/main.py`, lines
303-306). -/
def executeStep (env : StepEnv) : StepResult :=
  executeStepLoop env maxIterationsPerStep 0 false none []

/-- Concrete oracle refuting C5 as stated: no iteration ever collects any
facts, so every iteration records a score of 0.0 through the zero-facts
path, and refined queries are always available. -/
def envC5 : StepEnv :=
  ⟨fun _ => 0, fun _ => ⟨0, false, []⟩, fun _ => ["refined query"]⟩

/-- Concrete oracle for the amended C5: every iteration collects one fact,
evaluation always returns score 3/10 with the threshold unmet and one
missing aspect, and refined queries are always available. -/
def envDim : StepEnv :=
  ⟨fun _ => 1, fun _ => ⟨3/10, false, ["missing aspect"]⟩, fun _ => ["refined query"]⟩

/-- One entry of `GeminiAPIManager.api_keys`
(`src/utils/api_manager.py`, line 22): an API key string and its
`exhausted` flag. -/
structure KeyInfo where
  key : String
  exhausted : Bool
deriving DecidableEq

/-- Placeholder returned by out-of-range list reads; never reached on the
valid states handled here (Python would raise an `IndexError`). -/
def defaultKeyInfo : KeyInfo := ⟨"", true⟩

/-- `GeminiAPIManager` state (`src/utils/api_manager.py`, lines 21-26):
the key pool with per-key exhaustion flags, and the current index. -/
structure GeminiAPIManager where
  api_keys : List KeyInfo
  current_index : Nat
deriving DecidableEq

/-- `GeminiAPIManager.__init__` (`src/utils/api_manager.py`, lines 21-26):
all keys start non-exhausted, the current index starts at 0, and an empty
key list raises (modelled as `none`). -/
def mkManager (keyStrings : List String) : Option GeminiAPIManager :=
  if keyStrings.isEmpty then none
  else some ⟨keyStrings.map (fun k => ⟨k, false⟩), 0⟩

/-- The `while True` rotation loop of `mark_current_exhausted`
(`src/utils/api_manager.py`, lines 38-51): step the index round-robin; on
returning to the initial index, raise (modelled as `none`) if that key is
exhausted and otherwise stop there; otherwise stop at the first
non-exhausted key.  `fuel` makes the recursion structural: the caller
passes `keys.length`, which is exactly the number of steps after which the
index provably returns to `initialIndex`, so the fuel-exhausted `none`
branch is unreachable from `markCurrentExhausted`. -/
def rotateLoop (keys : List KeyInfo) (initialIndex : Nat) : Nat → Nat → Option Nat
  | _, 0 => none
  | idx, fuel + 1 =>
    if (idx + 1) % keys.length = initialIndex then
      if (keys.getD ((idx + 1) % keys.length) defaultKeyInfo).exhausted then none
      else some ((idx + 1) % keys.length)
    else if (keys.getD ((idx + 1) % keys.length) defaultKeyInfo).exhausted = false then
      some ((idx + 1) % keys.length)
    else rotateLoop keys initialIndex ((idx + 1) % keys.length) fuel

/-- `GeminiAPIManager.mark_current_exhausted`
(`src/utils/api_manager.py`, lines 32-51): mark the current key exhausted,
then rotate to the next non-exhausted key; if the rotation cycles all the
way round, every key is exhausted and the manager raises (modelled as
`none`). -/
def markCurrentExhausted (m : GeminiAPIManager) : Option GeminiAPIManager :=
  let marked := m.api_keys.set m.current_index
    { m.api_keys.getD m.current_index defaultKeyInfo with exhausted := true }
  match rotateLoop marked m.current_index m.current_index marked.length with
  | none => none
  | some idx => some ⟨marked, idx⟩

/-- `n` consecutive rate-limit signals, each handled by
`mark_current_exhausted`; `none` propagates the all-keys-exhausted
exception. -/
def signalTimes (m : GeminiAPIManager) : Nat → Option GeminiAPIManager
  | 0 => some m
  | n + 1 => (signalTimes m n).bind markCurrentExhausted

/-- The manager state after the first `j` keys of `ks` have been exhausted
in order: keys `0..j-1` carry `exhausted = true`, the rest are fresh, and
the current index is `j`. -/
def poolState (ks : List String) (j : Nat) : GeminiAPIManager :=
  ⟨(ks.take j).map (fun s => ⟨s, true⟩) ++ (ks.drop j).map (fun s => ⟨s, false⟩), j⟩

/-- One record of the cache index (`src/utils/source_cache.py`, lines
128-132): the cached URL, the write timestamp (ISO string in the source,
modelled as hours since an epoch) and the content size. -/
structure CacheEntry where
  url : String
  timestamp : ℚ
  size_bytes : Nat
deriving DecidableEq

/-- `SourceCache` state (`src/utils/source_cache.py`, lines 14-32): the
TTL in hours (default 24), the on-disk index (`cache_index.json`), the
content blob files, and the hit/miss counters.  Index and files are
association lists keyed by the cache key. -/
structure SourceCache where
  cache_ttl : ℚ
  cache_index : List (String × CacheEntry)
  files : List (String × String)
  hits : Nat
  misses : Nat
deriving DecidableEq

/-- `SourceCache._get_cache_key` (`src/utils/source_cache.py`, lines
53-55) computes the MD5 hex digest of the URL; it is modelled as the URL
itself, a stable injective key — no claim depends on the digest value. -/
def cacheKey (url : String) : String := url

/-- Python dict assignment `d[k] = v` on an association list: replace the
value in place if the key is present, append otherwise. -/
def assocSet {α : Type} (l : List (String × α)) (k : String) (v : α) :
    List (String × α) :=
  if l.any (fun p => p.1 == k) then
    l.map (fun p => if p.1 == k then (k, v) else p)
  else l ++ [(k, v)]

/-- Python `del d[k]` / file deletion on an association list. -/
def assocErase {α : Type} (l : List (String × α)) (k : String) :
    List (String × α) :=
  l.filter (fun p => !(p.1 == k))

/-- `SourceCache._is_expired` (`src/utils/source_cache.py`, lines 57-63):
an entry is expired when `now - cached_time > cache_ttl`. -/
def isExpired (ttl timestamp now : ℚ) : Bool :=
  decide (now - timestamp > ttl)

/-- `SourceCache.remove` (`src/utils/source_cache.py`, lines 139-154):
drop the URL's entry from the index and delete its content file. -/
def SourceCache.remove (c : SourceCache) (url : String) : SourceCache :=
  { c with
    cache_index := assocErase c.cache_index (cacheKey url),
    files := assocErase c.files (cacheKey url) }

/-- `SourceCache.get` (`src/utils/source_cache.py`, lines 65-106),
evaluated at wall-clock time `now`: a missing index entry is a miss; an
expired entry is a miss that also removes the entry and its file; an
intact entry returns the content file, or a miss if the file cannot be
read (modelled: is absent). -/
def SourceCache.get (c : SourceCache) (now : ℚ) (url : String) :
    Option String × SourceCache :=
  match c.cache_index.lookup (cacheKey url) with
  | none => (none, { c with misses := c.misses + 1 })
  | some entry =>
    if isExpired c.cache_ttl entry.timestamp now then
      (none, SourceCache.remove { c with misses := c.misses + 1 } url)
    else
      match c.files.lookup (cacheKey url) with
      | some content => (some content, { c with hits := c.hits + 1 })
      | none => (none, { c with misses := c.misses + 1 })

/-- `SourceCache.put` (`src/utils/source_cache.py`, lines 108-137),
evaluated at wall-clock time `now`: empty content is rejected; otherwise
the content blob is written and the index entry recorded with the current
timestamp and content length.  `put` itself performs no `should_cache`
check — that gate lives in the caller `_process_url`
(`src/main.py`, lines 483-484). -/
def SourceCache.put (c : SourceCache) (now : ℚ) (url content : String) :
    SourceCache :=
  if content = "" then c
  else
    { c with
      files := assocSet c.files (cacheKey url) content,
      cache_index :=
        assocSet c.cache_index (cacheKey url) ⟨url, now, content.length⟩ }

/-- The fixed allow-list of `SourceCache.should_cache`
(`src/utils/source_cache.py`, lines 214-222). -/
def cacheWorthyDomains : List String :=
  ["github.com", "docs.", "documentation.",
   ".edu", ".gov", ".org",
   "arxiv.org", "wikipedia.org",
   "stackoverflow.com", "python.org",
   "ai.google.dev", "cloud.google.com",
   "openai.com", "anthropic.com",
   "huggingface.co", "paperswithcode.com"]

/-- `SourceCache.should_cache` (`src/utils/source_cache.py`, lines
204-224): true when any allow-listed token is a substring of the
lower-cased full URL. -/
def shouldCache (url : String) : Bool :=
  cacheWorthyDomains.any (fun domain => strContains (lowerChars url) domain)

/-- A freshly constructed cache with the default 24-hour TTL and empty
index, files and counters (`SourceCache.__init__` on a clean directory). -/
def emptyCache : SourceCache := ⟨24, [], [], 0, 0⟩

/-- A cache holding one entry written at time 0 with its content file
still on disk. -/
def expiredCache : SourceCache :=
  ⟨24, [("u", ⟨"u", 0, 5⟩)], [("u", "hello")], 0, 0⟩

/-- An extracted fact as produced by `extract_key_info` and consumed
throughout `src/main.py` and `src/modules/sanity_checker.py`: a statement
string and its source URL.  (Named `ExtractedFact` because `Fact` is taken
by Mathlib.) -/
structure ExtractedFact where
  fact : String
  source : String
deriving DecidableEq

/-- A research plan: the main objective and the ordered steps
(`modules/Planner.py` output consumed by `src/main.py`). -/
structure Plan where
  main_objective : String
  steps : List Step
deriving DecidableEq

/-- The state dict assembled by `ResearchSystem._save_checkpoint`
(`src/main.py`, lines 544-554). -/
structure CheckpointState where
  user_prompt : String
  research_plan : Plan
  current_step : Nat
  completed_steps : List Nat
  all_collected_facts : List ExtractedFact
  scraped_urls : List String
deriving DecidableEq

/-- The JSON record `CheckpointManager.save` writes
(`src/utils/checkpoint_manager.py`, lines 21-43): the state plus a
timestamp and version tag.  JSON serialization of these
JSON-representable fields is modelled as the identity (a faithful
round-trip), so the file holds the record itself. -/
structure CheckpointFile where
  state : CheckpointState
  timestamp : ℚ
  checkpoint_version : String
deriving DecidableEq

/-- `CheckpointManager.save` (`src/utils/checkpoint_manager.py`, lines
21-43): overwrite the checkpoint file with the state plus metadata. -/
def checkpointSave (state : CheckpointState) (now : ℚ) : Option CheckpointFile :=
  some ⟨state, now, "1.0"⟩

/-- `CheckpointManager.load` (`src/utils/checkpoint_manager.py`, lines
45-64): return the stored record, or `none` when no checkpoint exists. -/
def checkpointLoad (disk : Option CheckpointFile) : Option CheckpointFile :=
  disk

/-- The two shared accumulators `_load_checkpoint` restores
(`src/main.py`, lines 557-565): the fact list and the scraped-URL set. -/
structure ResearchAccumulators where
  all_collected_facts : List ExtractedFact
  scraped_urls : Finset String
deriving DecidableEq

/-- `ResearchSystem._save_checkpoint` (`src/main.py`, lines 544-555):
build the state dict — with `completed_steps = list(range(1,
current_step + 1))` and `scraped_urls = list(self.scraped_urls)` — and
hand it to the checkpoint manager.  `list(set)` enumerates the set in an
unspecified order; it is modelled as the canonical sorted enumeration,
which `set(...)` on load collapses back to the same set either way. -/
def saveCheckpoint (sys : ResearchAccumulators) (user_prompt : String)
    (research_plan : Plan) (current_step : Nat) (now : ℚ) : Option CheckpointFile :=
  checkpointSave
    ⟨user_prompt, research_plan, current_step, List.range' 1 current_step,
     sys.all_collected_facts, sys.scraped_urls.sort (· ≤ ·)⟩ now

/-- `ResearchSystem._load_checkpoint` (`src/main.py`, lines 557-565):
restore the fact list and rebuild the scraped-URL set from the stored
list; on a missing checkpoint the accumulators are left unchanged. -/
def loadCheckpoint (sys : ResearchAccumulators) (disk : Option CheckpointFile) :
    ResearchAccumulators :=
  match checkpointLoad disk with
  | none => sys
  | some file =>
    ⟨file.state.all_collected_facts, file.state.scraped_urls.toFinset⟩

/-- The sufficiency judgment returned by `check_global_sufficiency`
(`src/modules/sanity_checker.py`): `pass`, an optional `rescue_query`,
and a `reason`. -/
structure SuffResult where
  pass : Bool
  rescue_query : Option String
  reason : String

/-- One search hit: `\x7btitle, url\x7d` as returned by the search engine. -/
structure SearchResult where
  title : String
  url : String

/-- Oracle for the external calls `_perform_sanity_check` makes: the
sufficiency judgment, the search engine, the scraper (`none` models a
failed or timed-out fetch) and the extractor `(prompt, content, url) ↦
facts`. -/
structure SanityEnv where
  sufficiency : SuffResult
  search : String → Nat → List SearchResult
  scrape : String → Option String
  extract : String → String → String → List ExtractedFact

/-- The rescue-fetch loop `for result in search_results[:2]`
(`src/main.py`, lines 527-540): each URL is fetched; on success its
extracted facts are appended.  Returns the fetched URLs and the facts
gathered, in order. -/
def rescueFetchLoop (env : SanityEnv) (user_prompt : String) :
    List SearchResult → List String × List ExtractedFact
  | [] => ([], [])
  | r :: rest =>
    match env.scrape r.url with
    | some content =>
      (r.url :: (rescueFetchLoop env user_prompt rest).1,
       env.extract user_prompt content r.url ++ (rescueFetchLoop env user_prompt rest).2)
    | none =>
      (r.url :: (rescueFetchLoop env user_prompt rest).1,
       (rescueFetchLoop env user_prompt rest).2)

/-- Observable trace of `_perform_sanity_check`: how many sufficiency
judgments ran, the search requests issued as `(query, num_results)`
pairs, the URLs fetched, and the final shared fact list. -/
structure SanityTrace where
  sufficiency_calls : Nat
  search_requests : List (String × Nat)
  fetched_urls : List String
  facts : List ExtractedFact

/-- `ResearchSystem._perform_sanity_check` (`src/main.py`, lines
505-542): one sufficiency judgment; if it fails and supplies a rescue
query, one search for 3 results is issued, the top 2 hits are fetched,
and their facts are appended to the shared list.  There is no loop: the
judgment is never re-run. -/
def performSanityCheck (env : SanityEnv) (user_prompt : String)
    (facts : List ExtractedFact) : SanityTrace :=
  if env.sufficiency.pass then ⟨1, [], [], facts⟩
  else
    match env.sufficiency.rescue_query with
    | none => ⟨1, [], [], facts⟩
    | some rescue_query =>
      ⟨1, [(rescue_query, 3)],
       (rescueFetchLoop env user_prompt ((env.search rescue_query 3).take 2)).1,
       facts ++ (rescueFetchLoop env user_prompt ((env.search rescue_query 3).take 2)).2⟩

/-- Concrete oracle for the C9 witness: a failed sufficiency check with a
rescue query, three search hits, every fetch succeeding, one fact per
page. -/
def sanityEnvW : SanityEnv :=
  ⟨⟨false, some "rescue", "gap"⟩,
   fun _ _ => [⟨"t1", "u1"⟩, ⟨"t2", "u2"⟩, ⟨"t3", "u3"⟩],
   fun _ => some "content",
   fun _ _ url => [⟨"f", url⟩]⟩

theorem roundAux_cons_pos (dep : Step → Bool) (s : Step) (rest cb nr : List Step)
    (hc : (dep s && !cb.isEmpty) = true) :
    roundAux dep (s :: rest) cb nr = roundAux dep rest cb (nr ++ [s]) := by
  simp [roundAux, hc]

theorem roundAux_cons_neg (dep : Step → Bool) (s : Step) (rest cb nr : List Step)
    (hc : (dep s && !cb.isEmpty) = false) :
    roundAux dep (s :: rest) cb nr = roundAux dep rest (cb ++ [s]) nr := by
  simp [roundAux, hc]

theorem roundAux_length (dep : Step → Bool) (l : List Step) :
    ∀ cb nr : List Step,
      ((roundAux dep l cb nr).1).length + ((roundAux dep l cb nr).2).length
        = cb.length + nr.length + l.length := by
  induction l with
  | nil => intro cb nr; simp [roundAux]
  | cons a t ih =>
    intro cb nr
    cases hc : (dep a && !cb.isEmpty) with
    | true => rw [roundAux_cons_pos dep a t cb nr hc, ih]; simp; omega
    | false => rw [roundAux_cons_neg dep a t cb nr hc, ih]; simp; omega

theorem roundAux_fst_ne_nil (dep : Step → Bool) (l : List Step) :
    ∀ cb nr : List Step, cb ≠ [] → (roundAux dep l cb nr).1 ≠ [] := by
  induction l with
  | nil => intro cb nr hcb; simpa [roundAux] using hcb
  | cons a t ih =>
    intro cb nr hcb
    cases hc : (dep a && !cb.isEmpty) with
    | true => rw [roundAux_cons_pos dep a t cb nr hc]; exact ih cb (nr ++ [a]) hcb
    | false =>
      rw [roundAux_cons_neg dep a t cb nr hc]
      exact ih (cb ++ [a]) nr (by simp)

theorem roundAux_nil_cb (dep : Step → Bool) (s : Step) (rest nr : List Step) :
    roundAux dep (s :: rest) [] nr = roundAux dep rest [s] nr := by
  simp [roundAux]

/-- When the final element `t` of the remaining list is dependent and the
current batch is non-empty, one scheduler round defers `t` to the very end
of the next remaining list and otherwise behaves as on the list without
`t`. -/
theorem roundAux_last_dep (dep : Step → Bool) (t : Step) (hdep : dep t = true) :
    ∀ (l cb nr : List Step), cb ≠ [] →
      roundAux dep (l ++ [t]) cb nr
        = ((roundAux dep l cb nr).1, (roundAux dep l cb nr).2 ++ [t]) := by
  intro l
  induction l with
  | nil =>
    intro cb nr hcb
    cases cb with
    | nil => exact absurd rfl hcb
    | cons c cs => simp [roundAux, hdep]
  | cons a rest ih =>
    intro cb nr hcb
    cases cb with
    | nil => exact absurd rfl hcb
    | cons c cs =>
      rw [List.cons_append]
      cases hc : (dep a && !(c :: cs).isEmpty) with
      | true =>
        rw [roundAux_cons_pos dep a (rest ++ [t]) (c :: cs) nr hc,
          roundAux_cons_pos dep a rest (c :: cs) nr hc]
        exact ih (c :: cs) (nr ++ [a]) (by simp)
      | false =>
        rw [roundAux_cons_neg dep a (rest ++ [t]) (c :: cs) nr hc,
          roundAux_cons_neg dep a rest (c :: cs) nr hc]
        exact ih ((c :: cs) ++ [a]) nr (by simp)

theorem getLast?_cons_of_ne_nil {α : Type} (x : α) (xs : List α) (h : xs ≠ []) :
    (x :: xs).getLast? = xs.getLast? := by
  cases xs with
  | nil => exact absurd rfl h
  | cons b t => rw [List.getLast?_cons_cons]

theorem createBatchesAux_singleton (dep : Step → Bool) (t : Step) :
    createBatchesAux dep [t] = [[t]] := by
  have hr : roundAux dep [t] [] [] = ([t], []) := by simp [roundAux]
  simp [createBatchesAux, hr]

/-- When the final element of the step list is classified as dependent, the
scheduler's last emitted batch is that element alone. -/
theorem createBatchesAux_last_singleton (dep : Step → Bool) (t : Step)
    (hdep : dep t = true) :
    ∀ (n : Nat) (l : List Step), l.length ≤ n →
      (createBatchesAux dep (l ++ [t])).getLast? = some [t] := by
  intro n
  induction n with
  | zero =>
    intro l hl
    have hl0 : l = [] := List.eq_nil_of_length_eq_zero (Nat.le_zero.mp hl)
    subst hl0
    simp [createBatchesAux_singleton]
  | succ m ih =>
    intro l hl
    cases l with
    | nil => simp [createBatchesAux_singleton]
    | cons s l' =>
      have hcomb : roundAux dep ((s :: l') ++ [t]) [] []
          = ((roundAux dep l' [s] []).1, (roundAux dep l' [s] []).2 ++ [t]) := by
        rw [List.cons_append, roundAux_nil_cb,
          roundAux_last_dep dep t hdep l' [s] [] (by simp)]
      have hne1 : (roundAux dep l' [s] []).1 ≠ [] :=
        roundAux_fst_ne_nil dep l' [s] [] (by simp)
      have hlen := roundAux_length dep l' [s] []
      have hr2 : ((roundAux dep l' [s] []).2).length ≤ m := by
        have h1 : 0 < ((roundAux dep l' [s] []).1).length := List.length_pos.mpr hne1
        simp only [List.length_cons, List.length_nil] at hlen hl
        omega
      have hrec := ih (roundAux dep l' [s] []).2 hr2
      rw [List.cons_append, createBatchesAux]
      rw [← List.cons_append, hcomb]
      rw [dif_neg (by simpa using hne1)]
      have hrecne : createBatchesAux dep ((roundAux dep l' [s] []).2 ++ [t]) ≠ [] := by
        intro hbad
        rw [hbad] at hrec
        exact Option.noConfusion hrec
      rw [getLast?_cons_of_ne_nil _ _ hrecne]
      exact hrec

theorem flatten_map_singleton (l : List Step) :
    (l.map (fun st => [st])).flatten = l := by
  induction l with
  | nil => simp
  | cons a t ih => simp [ih]

theorem roundAux_perm (dep : Step → Bool) (l : List Step) :
    ∀ cb nr : List Step,
      ((roundAux dep l cb nr).1 ++ (roundAux dep l cb nr).2).Perm (cb ++ nr ++ l) := by
  induction l with
  | nil => intro cb nr; simp [roundAux]
  | cons a t ih =>
    intro cb nr
    cases hc : (dep a && !cb.isEmpty) with
    | true =>
      rw [roundAux_cons_pos dep a t cb nr hc]
      refine (ih cb (nr ++ [a])).trans ?_
      have he : cb ++ (nr ++ [a]) ++ t = cb ++ nr ++ (a :: t) := by simp
      rw [he]
    | false =>
      rw [roundAux_cons_neg dep a t cb nr hc]
      refine (ih (cb ++ [a]) nr).trans ?_
      have he : (cb ++ [a]) ++ nr ++ t = cb ++ (a :: (nr ++ t)) := by simp
      rw [he]
      have hmid : (a :: (nr ++ t)).Perm (nr ++ (a :: t)) := List.perm_middle.symm
      refine (List.Perm.append_left cb hmid).trans ?_
      rw [List.append_assoc]

theorem createBatchesAux_flatten_perm (dep : Step → Bool) :
    ∀ (n : Nat) (l : List Step), l.length ≤ n →
      ((createBatchesAux dep l).flatten).Perm l := by
  intro n
  induction n with
  | zero =>
    intro l hl
    have hl0 : l = [] := List.eq_nil_of_length_eq_zero (Nat.le_zero.mp hl)
    subst hl0
    simp [createBatchesAux]
  | succ m ih =>
    intro l hl
    cases l with
    | nil => simp [createBatchesAux]
    | cons s rest =>
      rw [createBatchesAux]
      by_cases hfst : (roundAux dep (s :: rest) [] []).1 = []
      · rw [dif_pos hfst, flatten_map_singleton]
      · rw [dif_neg hfst]
        have hlen := roundAux_length dep (s :: rest) [] []
        have hr2 : ((roundAux dep (s :: rest) [] []).2).length ≤ m := by
          have h1 : 0 < ((roundAux dep (s :: rest) [] []).1).length :=
            List.length_pos.mpr hfst
          simp only [List.length_cons, List.length_nil] at hlen hl
          omega
        rw [List.flatten_cons]
        refine (List.Perm.append_left _ (ih _ hr2)).trans ?_
        simpa using roundAux_perm dep (s :: rest) [] []

theorem createBatchesAux_batches_ne_nil (dep : Step → Bool) :
    ∀ (n : Nat) (l : List Step), l.length ≤ n →
      ∀ b ∈ createBatchesAux dep l, b ≠ [] := by
  intro n
  induction n with
  | zero =>
    intro l hl
    have hl0 : l = [] := List.eq_nil_of_length_eq_zero (Nat.le_zero.mp hl)
    subst hl0
    simp [createBatchesAux]
  | succ m ih =>
    intro l hl
    cases l with
    | nil => simp [createBatchesAux]
    | cons s rest =>
      rw [createBatchesAux]
      by_cases hfst : (roundAux dep (s :: rest) [] []).1 = []
      · rw [dif_pos hfst]
        intro b hb
        rcases List.mem_map.mp hb with ⟨st, _, rfl⟩
        simp
      · rw [dif_neg hfst]
        have hlen := roundAux_length dep (s :: rest) [] []
        have hr2 : ((roundAux dep (s :: rest) [] []).2).length ≤ m := by
          have h1 : 0 < ((roundAux dep (s :: rest) [] []).1).length :=
            List.length_pos.mpr hfst
          simp only [List.length_cons, List.length_nil] at hlen hl
          omega
        intro b hb
        rcases List.mem_cons.mp hb with rfl | hb2
        · exact hfst
        · exact ih _ hr2 b hb2

/-- C1: for a plan whose steps are numbered `1..n` in order, the scheduler's
last emitted batch is a singleton containing exactly the last step, with no
assumption on the steps' action or reasoning text. -/
theorem scheduler_synthesis_last (steps : List Step) (hne : steps ≠ [])
    (hnum : ∀ (i : Nat) (h : i < steps.length), (steps.get ⟨i, h⟩).step_number = i + 1) :
    (createExecutionBatches steps).getLast? = some [steps.getLast hne] := by
  have hsplit : steps.dropLast ++ [steps.getLast hne] = steps :=
    List.dropLast_append_getLast hne
  have hlen : 0 < steps.length := List.length_pos.mpr hne
  have hdep : stepHasDependency steps.length (steps.getLast hne) = true := by
    have hget : steps.getLast hne = steps.get ⟨steps.length - 1, by omega⟩ :=
      List.getLast_eq_get steps hne
    have hnumlast : (steps.getLast hne).step_number = steps.length := by
      rw [hget, hnum (steps.length - 1) (by omega)]
      omega
    simp [stepHasDependency, hnumlast]
  have hmain := createBatchesAux_last_singleton (stepHasDependency steps.length)
    (steps.getLast hne) hdep steps.dropLast.length steps.dropLast le_rfl
  rw [hsplit] at hmain
  exact hmain

/-- C1 witness: on the concrete keyword-free plan `steps3`, the last batch
is the singleton of step 3. -/
theorem scheduler_synthesis_last_witness :
    (createExecutionBatches steps3).getLast? = some [steps3.getLast (by simp [steps3])] :=
  scheduler_synthesis_last steps3 (by simp [steps3]) (by decide)

/-- C2: the scheduler never produces an empty batch, and the concatenation
of all batches is a permutation of the input step list (no step dropped or
duplicated). -/
theorem scheduler_batches_partition (steps : List Step) :
    (∀ b ∈ createExecutionBatches steps, b ≠ []) ∧
      ((createExecutionBatches steps).flatten).Perm steps :=
  ⟨createBatchesAux_batches_ne_nil _ steps.length steps le_rfl,
   createBatchesAux_flatten_perm _ steps.length steps le_rfl⟩

theorem executeStepLoop_succ (env : StepEnv) (fuel it : Nat) (qm : Bool)
    (le : Option Evaluation) (sc : List ℚ) :
    executeStepLoop env (fuel + 1) it qm le sc
      = if it < maxIterationsPerStep ∧ qm = false then
          if it + 1 = 1 then
            match runIteration env (it + 1) sc with
            | IterOutcome.halt r => r
            | IterOutcome.next ev sc2 =>
              executeStepLoop env fuel (it + 1) qm (some ev) sc2
          else
            match le with
            | none => ⟨it + 1, qm, sc⟩
            | some prev =>
              if prev.missing_aspects.isEmpty then ⟨it + 1, qm, sc⟩
              else if (env.refineAt (it + 1)).isEmpty then ⟨it + 1, qm, sc⟩
              else
                match runIteration env (it + 1) sc with
                | IterOutcome.halt r => r
                | IterOutcome.next ev sc2 =>
                  executeStepLoop env fuel (it + 1) qm (some ev) sc2
        else ⟨it, qm, sc⟩ := rfl

theorem runIteration_halt_iterations (env : StepEnv) (it : Nat) (scores : List ℚ)
    (r : StepResult) (h : runIteration env it scores = IterOutcome.halt r) :
    r.iterations = it := by
  unfold runIteration at h
  split at h
  · exact absurd h (by simp)
  · split at h
    · cases h; rfl
    · split at h
      · cases h; rfl
      · exact absurd h (by simp)

/-- However much fuel remains, the loop's final iteration counter never
exceeds `maxIterationsPerStep` when it starts at or below it: the guard
`iteration < maxIterationsPerStep` is what bounds the counter. -/
theorem executeStepLoop_iterations_le (env : StepEnv) :
    ∀ (fuel it : Nat) (qm : Bool) (le : Option Evaluation) (sc : List ℚ),
      it ≤ maxIterationsPerStep →
      (executeStepLoop env fuel it qm le sc).iterations ≤ maxIterationsPerStep := by
  intro fuel
  induction fuel with
  | zero => intro it qm le sc hit; simpa [executeStepLoop] using hit
  | succ f ih =>
    intro it qm le sc hit
    rw [executeStepLoop_succ]
    split
    · rename_i hguard
      have hit1 : it + 1 ≤ maxIterationsPerStep := hguard.1
      split
      · split
        · rename_i r heq
          rw [runIteration_halt_iterations env (it + 1) sc r heq]
          exact hit1
        · exact ih (it + 1) qm _ _ hit1
      · split
        · exact hit1
        · rename_i prev
          split
          · exact hit1
          · split
            · exact hit1
            · split
              · rename_i r heq
                rw [runIteration_halt_iterations env (it + 1) sc r heq]
                exact hit1
              · exact ih (it + 1) qm _ _ hit1
    · exact hit

/-- C3: the per-step quality-convergence loop executes at most
`max_iterations_per_step = 3` iterations, for every oracle behaviour and
in fact for every fuel value (the bound comes from the loop guard, not from
the fuel). -/
theorem step_loop_iteration_cap (env : StepEnv) :
    maxIterationsPerStep = 3 ∧
    (executeStep env).iterations ≤ maxIterationsPerStep ∧
    ∀ fuel : Nat, (executeStepLoop env fuel 0 false none []).iterations ≤ maxIterationsPerStep :=
  ⟨rfl,
   executeStepLoop_iterations_le env maxIterationsPerStep 0 false none [] (Nat.zero_le _),
   fun fuel => executeStepLoop_iterations_le env fuel 0 false none [] (Nat.zero_le _)⟩

/-- C5 counterexample: with the oracle `envC5`, iterations 1 and 2 both
collect no facts, so both record score 0.0, and the improvement
`0.0 - 0.0 = 0 < 0.05`; yet the loop still performs iteration 3, because
the zero-facts path reaches `continue` before the diminishing-returns
check (`src/main.py`, lines 357-365).  This refutes the claim that the
loop halts at iteration k in the zero-facts case. -/
theorem step_loop_diminishing_counterexample :
    (executeStep envC5).scores.getD 1 0 - (executeStep envC5).scores.getD 0 0 < 1/20 ∧
    (executeStep envC5).iterations = 3 ∧
    (executeStep envC5).scores = [0, 0, 0] := by
  have hcomp : executeStep envC5 = ⟨3, false, [0, 0, 0]⟩ := rfl
  rw [hcomp]
  refine ⟨by norm_num, rfl, rfl⟩

theorem executeStepLoop_later (env : StepEnv) (fuel it : Nat) (qm : Bool)
    (prev : Evaluation) (sc : List ℚ)
    (hguard : it < maxIterationsPerStep ∧ qm = false) (hfirst : it + 1 ≠ 1) :
    executeStepLoop env (fuel + 1) it qm (some prev) sc
      = if prev.missing_aspects.isEmpty then ⟨it + 1, qm, sc⟩
        else if (env.refineAt (it + 1)).isEmpty then ⟨it + 1, qm, sc⟩
        else
          match runIteration env (it + 1) sc with
          | IterOutcome.halt r => r
          | IterOutcome.next ev sc2 =>
            executeStepLoop env fuel (it + 1) qm (some ev) sc2 := by
  rw [executeStepLoop_succ, if_pos hguard, if_neg hfirst]

/-- Amended C5: from the second iteration on, whenever iteration `k = it+1`
takes the evaluation path (at least one cumulative fact), the threshold is
not met and its score improves on the previous recorded score by less than
0.05, the loop halts at iteration `k` — no iteration `k+1` occurs,
whatever fuel remains.  The zero-facts path is excluded: there the source
`continue`s without the diminishing-returns check (see the
counterexample). -/
theorem step_loop_diminishing_returns_halt (env : StepEnv) (fuel it : Nat)
    (prev : Evaluation) (sc : List ℚ)
    (hit1 : 1 ≤ it) (hit3 : it < maxIterationsPerStep)
    (hmiss : prev.missing_aspects ≠ [])
    (href : env.refineAt (it + 1) ≠ [])
    (hfacts : env.factsAfter (it + 1) ≠ 0)
    (hthr : (env.evalAt (it + 1)).threshold_met = false)
    (hdim : (env.evalAt (it + 1)).overall_score - sc.getLast?.getD 0 < 1/20) :
    executeStepLoop env (fuel + 1) it false (some prev) sc
      = ⟨it + 1, false, sc ++ [(env.evalAt (it + 1)).overall_score]⟩ := by
  rw [executeStepLoop_later env fuel it false prev sc ⟨hit3, rfl⟩ (by omega)]
  rw [if_neg (by simpa using hmiss)]
  rw [if_neg (by simpa using href)]
  have hrun : runIteration env (it + 1) sc
      = IterOutcome.halt ⟨it + 1, false, sc ++ [(env.evalAt (it + 1)).overall_score]⟩ := by
    unfold runIteration
    rw [if_neg hfacts, if_neg (by simp [hthr]), if_pos ⟨by omega, hdim⟩]
  rw [hrun]

/-- Amended C5 witness: with oracle `envDim`, entering iteration 2 with
previous recorded score 0.28 and new score 0.3 (improvement 0.02 < 0.05),
the loop halts at iteration 2. -/
theorem step_loop_diminishing_returns_halt_witness :
    executeStepLoop envDim 2 1 false (some ⟨0, false, ["missing aspect"]⟩) [28/100]
      = ⟨2, false, [28/100, 3/10]⟩ := by
  have h := step_loop_diminishing_returns_halt envDim 1 1
    ⟨0, false, ["missing aspect"]⟩ [28/100]
    (by norm_num) (by norm_num [maxIterationsPerStep]) (by simp) (by simp [envDim])
    (by simp [envDim]) (by simp [envDim]) (by norm_num [envDim])
  simpa [envDim] using h

theorem poolState_api_keys_length (ks : List String) (j : Nat) (hj : j ≤ ks.length) :
    (poolState ks j).api_keys.length = ks.length := by
  simp [poolState, List.length_take, List.length_drop]
  omega

theorem poolState_getD (ks : List String) (j i : Nat) (hj : j ≤ ks.length)
    (hi : i < ks.length) :
    (poolState ks j).api_keys.getD i defaultKeyInfo
      = ⟨ks.getD i "", decide (i < j)⟩ := by
  rw [poolState]
  rw [List.getD_eq_getElem?_getD, List.getD_eq_getElem?_getD]
  by_cases hij : i < j
  · rw [List.getElem?_append_left (by simp [List.length_take]; omega)]
    rw [List.getElem?_map, List.getElem?_take, if_pos hij,
      List.getElem?_eq_getElem hi]
    simp [hij]
  · rw [List.getElem?_append_right (by simp [List.length_take]; omega)]
    rw [List.getElem?_map, List.getElem?_drop]
    have hlen : (List.map (fun s => (⟨s, true⟩ : KeyInfo)) (ks.take j)).length = j := by
      simp [List.length_take]; omega
    rw [hlen]
    have : j + (i - j) = i := by omega
    rw [this, List.getElem?_eq_getElem hi]
    simp [hij]

theorem poolState_mark (ks : List String) (j : Nat) (hj : j < ks.length) :
    (poolState ks j).api_keys.set j ⟨ks.getD j "", true⟩
      = (poolState ks (j + 1)).api_keys := by
  rw [poolState, poolState]
  rw [List.set_append]
  have hlen : (List.map (fun s => (⟨s, true⟩ : KeyInfo)) (ks.take j)).length = j := by
    simp [List.length_take]; omega
  rw [if_neg (by omega : ¬ j < (List.map (fun s => (⟨s, true⟩ : KeyInfo)) (ks.take j)).length)]
  rw [hlen, Nat.sub_self]
  rw [List.drop_eq_getElem_cons hj, List.map_cons]
  rw [List.take_succ, List.getElem?_eq_getElem hj]
  have hgd : ks.getD j "" = ks[j] := by
    rw [List.getD_eq_getElem?_getD, List.getElem?_eq_getElem hj]; rfl
  rw [hgd, Option.toList_some, List.map_append, List.append_assoc,
    List.map_singleton, List.singleton_append]
  rfl

theorem getD_exhausted_of_all (keys : List KeyInfo)
    (hall : ∀ e ∈ keys, e.exhausted = true) (i : Nat) :
    (keys.getD i defaultKeyInfo).exhausted = true := by
  rw [List.getD_eq_getElem?_getD]
  cases hx : keys[i]? with
  | none => rfl
  | some e => exact hall e (List.getElem?_mem hx)

theorem rotateLoop_all_exhausted (keys : List KeyInfo)
    (hall : ∀ e ∈ keys, e.exhausted = true) :
    ∀ (fuel initialIndex idx : Nat),
      rotateLoop keys initialIndex idx fuel = none := by
  intro fuel
  induction fuel with
  | zero => intro initialIndex idx; rfl
  | succ f ih =>
    intro initialIndex idx
    rw [rotateLoop]
    by_cases hinit : (idx + 1) % keys.length = initialIndex
    · rw [if_pos hinit, if_pos (getD_exhausted_of_all keys hall _)]
    · have hexh := getD_exhausted_of_all keys hall ((idx + 1) % keys.length)
      rw [if_neg hinit, if_neg (by rw [hexh]; simp)]
      exact ih initialIndex _

/-- One rate-limit signal in the state where the first `j` keys are
exhausted and at least two keys remain: key `j` is marked exhausted and the
manager rotates to key `j + 1`. -/
theorem markCurrentExhausted_poolState_step (ks : List String) (j : Nat)
    (hj : j + 1 < ks.length) :
    markCurrentExhausted (poolState ks j) = some (poolState ks (j + 1)) := by
  rw [markCurrentExhausted]
  have hgd : (poolState ks j).api_keys.getD j defaultKeyInfo
      = ⟨ks.getD j "", decide (j < j)⟩ := poolState_getD ks j j (by omega) (by omega)
  have hmarked : (poolState ks j).api_keys.set j
      { (poolState ks j).api_keys.getD j defaultKeyInfo with exhausted := true }
      = (poolState ks (j + 1)).api_keys := by
    rw [hgd]
    exact poolState_mark ks j (by omega)
  have hcur : (poolState ks j).current_index = j := rfl
  rw [hcur, hmarked]
  have hlen : (poolState ks (j + 1)).api_keys.length = ks.length :=
    poolState_api_keys_length ks (j + 1) (by omega)
  have hfuel : (poolState ks (j + 1)).api_keys.length = (ks.length - 1) + 1 := by omega
  rw [hfuel, rotateLoop, hlen]
  have hmod : (j + 1) % ks.length = j + 1 := Nat.mod_eq_of_lt hj
  rw [hmod]
  rw [if_neg (by omega : ¬ j + 1 = j)]
  have hnext : (poolState ks (j + 1)).api_keys.getD (j + 1) defaultKeyInfo
      = ⟨ks.getD (j + 1) "", decide (j + 1 < j + 1)⟩ :=
    poolState_getD ks (j + 1) (j + 1) (by omega) hj
  rw [if_pos (by rw [hnext]; simp)]
  rfl

/-- The final rate-limit signal: with only the last key non-exhausted and
current, marking it exhausts every key and the rotation raises. -/
theorem markCurrentExhausted_poolState_last (ks : List String)
    (hk : 1 ≤ ks.length) :
    markCurrentExhausted (poolState ks (ks.length - 1)) = none := by
  rw [markCurrentExhausted]
  have hgd : (poolState ks (ks.length - 1)).api_keys.getD (ks.length - 1) defaultKeyInfo
      = ⟨ks.getD (ks.length - 1) "", decide (ks.length - 1 < ks.length - 1)⟩ :=
    poolState_getD ks (ks.length - 1) (ks.length - 1) (by omega) (by omega)
  have hcur : (poolState ks (ks.length - 1)).current_index = ks.length - 1 := rfl
  have hmarked : (poolState ks (ks.length - 1)).api_keys.set (ks.length - 1)
      { (poolState ks (ks.length - 1)).api_keys.getD (ks.length - 1) defaultKeyInfo
          with exhausted := true }
      = (poolState ks ks.length).api_keys := by
    rw [hgd]
    have := poolState_mark ks (ks.length - 1) (by omega)
    rw [show ks.length - 1 + 1 = ks.length from by omega] at this
    exact this
  rw [hcur, hmarked]
  have hall : ∀ e ∈ (poolState ks ks.length).api_keys, e.exhausted = true := by
    intro e he
    rw [poolState] at he
    simp only [List.drop_length, List.map_nil, List.append_nil, List.mem_map] at he
    rcases he with ⟨s, _, rfl⟩
    rfl
  rw [rotateLoop_all_exhausted _ hall]

theorem mkManager_eq_poolState (ks : List String) (hk : ks ≠ []) :
    mkManager ks = some (poolState ks 0) := by
  rw [mkManager, if_neg (by simpa using hk)]
  simp [poolState]

theorem signalTimes_poolState (ks : List String) :
    ∀ j : Nat, j ≤ ks.length - 1 →
      signalTimes (poolState ks 0) j = some (poolState ks j) := by
  intro j
  induction j with
  | zero => intro _; rfl
  | succ i ih =>
    intro hle
    rw [signalTimes, ih (by omega)]
    rw [Option.some_bind]
    exact markCurrentExhausted_poolState_step ks i (by omega)

/-- C4: for a pool of `N ≥ 1` keys, `N` consecutive rate-limit signals end
in the all-keys-exhausted condition, while after `N - 1` signals exactly
one key is still non-exhausted and it is the current key. -/
theorem api_pool_exhaustion (ks : List String) (hN : 1 ≤ ks.length) :
    ∃ m0, mkManager ks = some m0 ∧
      signalTimes m0 ks.length = none ∧
      ∃ m, signalTimes m0 (ks.length - 1) = some m ∧
        (m.api_keys.filter (fun k => !k.exhausted)).length = 1 ∧
        (m.api_keys.getD m.current_index defaultKeyInfo).exhausted = false := by
  have hk : ks ≠ [] := by
    intro hbad
    rw [hbad] at hN
    simp at hN
  refine ⟨poolState ks 0, mkManager_eq_poolState ks hk, ?_, poolState ks (ks.length - 1),
    signalTimes_poolState ks (ks.length - 1) le_rfl, ?_, ?_⟩
  · have hsplit : ks.length = (ks.length - 1) + 1 := by omega
    rw [hsplit, signalTimes,
      signalTimes_poolState ks (ks.length - 1) le_rfl, Option.some_bind]
    exact markCurrentExhausted_poolState_last ks hN
  · rw [poolState]
    rw [List.filter_append, List.filter_map, List.filter_map]
    have ht : ((fun (k : KeyInfo) => !k.exhausted) ∘ fun s => (⟨s, true⟩ : KeyInfo))
        = fun _ => false := rfl
    have hf : ((fun (k : KeyInfo) => !k.exhausted) ∘ fun s => (⟨s, false⟩ : KeyInfo))
        = fun _ => true := rfl
    rw [ht, hf, List.filter_false, List.filter_true]
    simp [List.length_drop]
    omega
  · have := poolState_getD ks (ks.length - 1) (ks.length - 1) (by omega) (by omega)
    rw [show (poolState ks (ks.length - 1)).current_index = ks.length - 1 from rfl, this]
    simp

/-- C4 witness: a concrete pool of three keys. -/
theorem api_pool_exhaustion_witness :
    ∃ m0, mkManager ["k1", "k2", "k3"] = some m0 ∧
      signalTimes m0 3 = none ∧
      ∃ m, signalTimes m0 2 = some m ∧
        (m.api_keys.filter (fun k => !k.exhausted)).length = 1 ∧
        (m.api_keys.getD m.current_index defaultKeyInfo).exhausted = false :=
  api_pool_exhaustion ["k1", "k2", "k3"] (by decide)

theorem lookup_map_replace {α : Type} (l : List (String × α)) (k : String) (v : α)
    (h : l.any (fun p => p.1 == k) = true) :
    (l.map (fun p => if p.1 == k then (k, v) else p)).lookup k = some v := by
  induction l with
  | nil => simp at h
  | cons p t ih =>
    rcases p with ⟨k', v'⟩
    by_cases hk : k' = k
    · subst hk
      rw [List.map_cons, if_pos (by simp : ((k', v').1 == k') = true),
        List.lookup_cons]
      simp
    · have hb : (k' == k) = false := by simp [hk]
      have hb2 : (k == k') = false := by simp [Ne.symm hk]
      simp only [List.any_cons, hb, Bool.false_or] at h
      simp only [List.map_cons, hb, Bool.false_eq_true, if_false]
      rw [List.lookup_cons]
      simp only [hb2]
      exact ih h

theorem lookup_append_right_of_none {α : Type} (l : List (String × α)) (k : String)
    (v : α) (h : l.any (fun p => p.1 == k) = false) :
    (l ++ [(k, v)]).lookup k = some v := by
  induction l with
  | nil => simp [List.lookup]
  | cons p t ih =>
    rcases p with ⟨k', v'⟩
    simp only [List.any_cons, Bool.or_eq_false_iff] at h
    have hb2 : (k == k') = false := by
      have : ¬ k' = k := by
        intro hbad
        rw [hbad] at h
        simp at h
      simp [Ne.symm this]
    rw [List.cons_append, List.lookup_cons]
    simp only [hb2]
    exact ih h.2

/-- After `d[k] = v`, looking up `k` finds `v`. -/
theorem lookup_assocSet {α : Type} (l : List (String × α)) (k : String) (v : α) :
    (assocSet l k v).lookup k = some v := by
  rw [assocSet]
  cases h : l.any (fun p => p.1 == k) with
  | true =>
    rw [if_pos rfl]
    exact lookup_map_replace l k v h
  | false =>
    rw [if_neg (by simp)]
    exact lookup_append_right_of_none l k v h

/-- After deleting `k`, looking up `k` finds nothing. -/
theorem lookup_assocErase {α : Type} (l : List (String × α)) (k : String) :
    (assocErase l k).lookup k = none := by
  induction l with
  | nil => rfl
  | cons p t ih =>
    rcases p with ⟨k', v'⟩
    by_cases hk : k' = k
    · subst hk
      simpa [assocErase, List.filter_cons] using ih
    · have hb : (k' == k) = false := by simp [hk]
      have hb2 : (k == k') = false := by simp [Ne.symm hk]
      rw [assocErase, List.filter_cons]
      simp only [hb, Bool.not_false, if_pos]
      rw [List.lookup_cons]
      simp only [hb2]
      simpa [assocErase] using ih

/-- C6 counterexample: `put` stores even when `should_cache` is false.
`"http://example.net/data"` matches none of the 16 allow-list tokens, yet
`put` on an empty cache with non-empty content changes the cache. -/
theorem cache_put_gate_counterexample :
    shouldCache "http://example.net/data" = false ∧
    SourceCache.put emptyCache 0 "http://example.net/data" "hello" ≠ emptyCache := by
  constructor
  · decide
  · decide

/-- Amended C6: `put(url, content)` stores an index entry and content blob
if and only if `content` is non-empty; the `should_cache` gate is applied
by the caller (`_process_url`), not by `put` itself. -/
theorem cache_put_stores_iff_nonempty (c : SourceCache) (now : ℚ)
    (url content : String) :
    (content = "" → SourceCache.put c now url content = c) ∧
    (content ≠ "" →
      (SourceCache.put c now url content).cache_index.lookup (cacheKey url)
          = some ⟨url, now, content.length⟩ ∧
      (SourceCache.put c now url content).files.lookup (cacheKey url)
          = some content) := by
  constructor
  · intro h
    rw [SourceCache.put, if_pos h]
  · intro h
    rw [SourceCache.put, if_neg h]
    exact ⟨lookup_assocSet _ _ _, lookup_assocSet _ _ _⟩

/-- Amended C6 witness: storing non-empty content on the empty cache. -/
theorem cache_put_stores_iff_nonempty_witness :
    (SourceCache.put emptyCache 1 "https://docs.python.org/3/" "text").cache_index.lookup
        (cacheKey "https://docs.python.org/3/")
        = some ⟨"https://docs.python.org/3/", 1, 4⟩ ∧
    (SourceCache.put emptyCache 1 "https://docs.python.org/3/" "text").files.lookup
        (cacheKey "https://docs.python.org/3/") = some "text" :=
  (cache_put_stores_iff_nonempty emptyCache 1 "https://docs.python.org/3/" "text").2
    (by decide)

/-- C7: `get` on an entry older than the TTL returns absent and, as a side
effect, removes both the index entry and the content file, whether or not
they were still present. -/
theorem cache_get_expired_evicts (c : SourceCache) (now : ℚ) (url : String)
    (entry : CacheEntry)
    (hentry : c.cache_index.lookup (cacheKey url) = some entry)
    (hexp : now - entry.timestamp > c.cache_ttl) :
    (SourceCache.get c now url).1 = none ∧
    (SourceCache.get c now url).2.cache_index.lookup (cacheKey url) = none ∧
    (SourceCache.get c now url).2.files.lookup (cacheKey url) = none := by
  have hmatch : SourceCache.get c now url
      = if isExpired c.cache_ttl entry.timestamp now then
          (none, SourceCache.remove { c with misses := c.misses + 1 } url)
        else
          match c.files.lookup (cacheKey url) with
          | some content => (some content, { c with hits := c.hits + 1 })
          | none => (none, { c with misses := c.misses + 1 }) := by
    rw [SourceCache.get, hentry]
  rw [hmatch, if_pos (by rw [isExpired]; exact decide_eq_true hexp)]
  exact ⟨rfl, lookup_assocErase _ _, lookup_assocErase _ _⟩

/-- C7 witness: at time 25 the entry written at time 0 with TTL 24 is
expired; `get` misses and evicts it even though entry and file exist. -/
theorem cache_get_expired_evicts_witness :
    (SourceCache.get expiredCache 25 "u").1 = none ∧
    (SourceCache.get expiredCache 25 "u").2.cache_index.lookup (cacheKey "u") = none ∧
    (SourceCache.get expiredCache 25 "u").2.files.lookup (cacheKey "u") = none :=
  cache_get_expired_evicts expiredCache 25 "u" ⟨"u", 0, 5⟩ (by decide)
    (by norm_num [expiredCache])

/-- C10: `should_cache` holds exactly when one of the 16 fixed allow-list
tokens occurs as a substring anywhere in the lower-cased full URL; in
particular a URL whose query string contains `.gov` is classified
cache-worthy regardless of its domain, while the same URL without the
token is not. -/
theorem should_cache_substring_allowlist :
    cacheWorthyDomains.length = 16 ∧
    (∀ url : String, shouldCache url = true ↔
      ∃ d ∈ cacheWorthyDomains, d.data <:+: lowerChars url) ∧
    shouldCache "https://malicious.example/download?site=.gov" = true ∧
    shouldCache "https://malicious.example/download" = false := by
  refine ⟨rfl, ?_, by decide, by decide⟩
  intro url
  simp [shouldCache, strContains, List.any_eq_true]

/-- C8: loading right after saving reconstructs the fact accumulator and
the scraped-URL set exactly, whatever the accumulators held before the
load. -/
theorem checkpoint_roundtrip (sys other : ResearchAccumulators)
    (prompt : String) (plan : Plan) (currentStep : Nat) (now : ℚ) :
    (loadCheckpoint other (saveCheckpoint sys prompt plan currentStep now)).all_collected_facts
        = sys.all_collected_facts ∧
    (loadCheckpoint other (saveCheckpoint sys prompt plan currentStep now)).scraped_urls
        = sys.scraped_urls :=
  ⟨rfl, Finset.sort_toFinset _ _⟩

theorem rescueFetchLoop_fst_length (env : SanityEnv) (user_prompt : String) :
    ∀ l : List SearchResult,
      (rescueFetchLoop env user_prompt l).1.length = l.length := by
  intro l
  induction l with
  | nil => rfl
  | cons r rest ih =>
    cases hs : env.scrape r.url <;>
      simp [rescueFetchLoop, hs, ih]

/-- C9: when the sufficiency check fails with a rescue query, exactly one
sufficiency judgment and exactly one rescue search (requesting 3 results)
run, at most 2 URLs are fetched, and the shared fact list only grows by
appending the rescue facts. -/
theorem sanity_check_single_rescue (env : SanityEnv) (user_prompt : String)
    (facts : List ExtractedFact) (q : String)
    (hfail : env.sufficiency.pass = false)
    (hq : env.sufficiency.rescue_query = some q) :
    (performSanityCheck env user_prompt facts).sufficiency_calls = 1 ∧
    (performSanityCheck env user_prompt facts).search_requests = [(q, 3)] ∧
    (performSanityCheck env user_prompt facts).fetched_urls.length ≤ 2 ∧
    ∃ extra, (performSanityCheck env user_prompt facts).facts = facts ++ extra := by
  have hunf : performSanityCheck env user_prompt facts
      = ⟨1, [(q, 3)],
         (rescueFetchLoop env user_prompt ((env.search q 3).take 2)).1,
         facts ++ (rescueFetchLoop env user_prompt ((env.search q 3).take 2)).2⟩ := by
    rw [performSanityCheck, if_neg (by simp [hfail]), hq]
  rw [hunf]
  refine ⟨rfl, rfl, ?_, ⟨_, rfl⟩⟩
  rw [rescueFetchLoop_fst_length]
  calc ((env.search q 3).take 2).length ≤ 2 := List.length_take_le 2 _

/-- C9 witness: on `sanityEnvW` the rescue path runs exactly once with at
most two fetches and append-only fact growth. -/
theorem sanity_check_single_rescue_witness :
    (performSanityCheck sanityEnvW "p" []).sufficiency_calls = 1 ∧
    (performSanityCheck sanityEnvW "p" []).search_requests = [("rescue", 3)] ∧
    (performSanityCheck sanityEnvW "p" []).fetched_urls.length ≤ 2 ∧
    ∃ extra, (performSanityCheck sanityEnvW "p" []).facts = [] ++ extra :=
  sanity_check_single_rescue sanityEnvW "p" [] "rescue" rfl rfl
